import Mathlib

/-!
Verification of the FitScore matching engine and the job-description
extraction fallback of the job-applications assistant
(`job_apply_assistant.py`, with the same logic duplicated in
`replit_app.py`).

The Python functions are shallowly embedded over `List Char` / `String`:
the regex scans of `TOKEN_RE.findall` and `re.findall(r"(\d+)\s+years", ...)`
become explicit left-to-right scanners, Python float arithmetic in
`compute_fit_score` is modelled by exact rational arithmetic with Python's
round-half-to-even rounding, and Python character classes are modelled on
their ASCII fragment.
-/

set_option maxRecDepth 20000

namespace JobAssist

/-- ASCII letter class `[A-Za-z]`, the leading class of `TOKEN_RE`. -/
def isAlphaAZ (c : Char) : Bool := ('A' ≤ c && c ≤ 'Z') || ('a' ≤ c && c ≤ 'z')

/-- ASCII digit class, the `\d` of the years regex (ASCII fragment). -/
def isDigit09 (c : Char) : Bool := '0' ≤ c && c ≤ '9'

/-- Python regex `\s` whitespace class (ASCII fragment: space, tab, LF, VT, FF, CR). -/
def isSpacePy (c : Char) : Bool :=
  c = ' ' || c = '\t' || c = '\n' || c = '\x0b' || c = '\x0c' || c = '\r'

/-- Continuation class of `TOKEN_RE`: `[A-Za-z0-9+.#/\-]` (keeps `C++`, `.NET`-style
tails, and in particular keeps `.` so sentence-final periods stick to tokens). -/
def isTokenChar (c : Char) : Bool :=
  isAlphaAZ c || isDigit09 c || c = '+' || c = '.' || c = '#' || c = '/' || c = '-'

/-- Python `str.lower` on the ASCII letters (identity elsewhere). -/
def toLowerChar (c : Char) : Char :=
  match c with
  | 'A' => 'a' | 'B' => 'b' | 'C' => 'c' | 'D' => 'd' | 'E' => 'e' | 'F' => 'f'
  | 'G' => 'g' | 'H' => 'h' | 'I' => 'i' | 'J' => 'j' | 'K' => 'k' | 'L' => 'l'
  | 'M' => 'm' | 'N' => 'n' | 'O' => 'o' | 'P' => 'p' | 'Q' => 'q' | 'R' => 'r'
  | 'S' => 's' | 'T' => 't' | 'U' => 'u' | 'V' => 'v' | 'W' => 'w' | 'X' => 'x'
  | 'Y' => 'y' | 'Z' => 'z'
  | c => c

/-- `text.lower()` as a character list. -/
def pyLower (s : String) : List Char := s.data.map toLowerChar

/-- One attempted match of `TOKEN_RE = [A-Za-z][A-Za-z0-9+.#/\-]{1,}` anchored at the
head of the list: a letter followed by a maximal nonempty run of continuation
characters.  Returns the match and the remaining input. -/
def matchTokenAt : List Char → Option (List Char × List Char)
  | [] => none
  | c :: cs =>
    if isAlphaAZ c then
      if cs.takeWhile isTokenChar = [] then none
      else some (c :: cs.takeWhile isTokenChar, cs.dropWhile isTokenChar)
    else none

/-- Left-to-right scan of `TOKEN_RE.findall`: try a match at each position, skip one
character on failure, resume after the match on success.  The fuel argument is the
input length, which bounds the number of steps. -/
def scanTokens : Nat → List Char → List (List Char)
  | 0, _ => []
  | _ + 1, [] => []
  | fuel + 1, c :: cs =>
    match matchTokenAt (c :: cs) with
    | some (t, rest) => t :: scanTokens fuel rest
    | none => scanTokens fuel cs

/-- `TOKEN_RE.findall(text)`. -/
def findallTokens (s : String) : List (List Char) := scanTokens s.data.length s.data

/-- The stopword list of the source, verbatim. -/
def STOPWORDS : List String :=
  ["the", "and", "for", "with", "you", "your", "our", "are", "this", "that",
   "will", "have", "has", "in", "of", "to", "on", "a", "an", "is", "be", "as",
   "at", "or", "we", "by", "it", "from", "their", "they", "his", "her", "he", "she"]

/-- `_tokens(text) = [t.lower() for t in TOKEN_RE.findall(text) if t.lower() not in STOPWORDS]`. -/
def _tokens (s : String) : List String :=
  ((findallTokens s).map (fun t => String.mk (t.map toLowerChar))).filter
    (fun t => decide (t ∉ STOPWORDS))

/-- `set(_tokens(text))`, the token set compared by the scorer. -/
def tokenFinset (s : String) : Finset String := (_tokens s).toFinset

/-- Literal-list membership test: `startsWithList p l` holds when `p` is an initial
segment of `l` (used for the literal `years` of the years regex). -/
def startsWithList : List Char → List Char → Bool
  | [], _ => true
  | _ :: _, [] => false
  | p :: ps, c :: cs => p = c && startsWithList ps cs

/-- One attempted match of `(\d+)\s+years` anchored at the head of the list:
a maximal nonempty digit run, then a maximal nonempty whitespace run, then the
literal `years`.  Returns the captured digit group and the remaining input. -/
def matchYearsAt (l : List Char) : Option (List Char × List Char) :=
  if l.takeWhile isDigit09 = [] then none
  else if (l.dropWhile isDigit09).takeWhile isSpacePy = [] then none
  else if startsWithList ("years".data) ((l.dropWhile isDigit09).dropWhile isSpacePy) then
    some (l.takeWhile isDigit09, ((l.dropWhile isDigit09).dropWhile isSpacePy).drop 5)
  else none

/-- Left-to-right scan of `re.findall(r"(\d+)\s+years", text)`. -/
def scanYears : Nat → List Char → List (List Char)
  | 0, _ => []
  | _ + 1, [] => []
  | fuel + 1, c :: cs =>
    match matchYearsAt (c :: cs) with
    | some (d, rest) => d :: scanYears fuel rest
    | none => scanYears fuel cs

/-- `re.findall(r"(\d+)\s+years", l)` for an (already lowercased) character list. -/
def findallYears (l : List Char) : List (List Char) := scanYears l.length l

/-- The claim-level predicate for C6: the lowercased text contains a nonempty
digit run, then nonempty whitespace, then the literal `years`. -/
def containsYearsFigure (s : String) : Prop :=
  ∃ pre d w t : List Char, pyLower s = pre ++ (d ++ (w ++ ("years".data ++ t))) ∧
    d ≠ [] ∧ (∀ c ∈ d, isDigit09 c = true) ∧ w ≠ [] ∧ (∀ c ∈ w, isSpacePy c = true)

/-- Python `round`: nearest integer, ties to the even integer. -/
def pythonRound (q : ℚ) : ℤ :=
  if q - ⌊q⌋ < 1 / 2 then ⌊q⌋
  else if 1 / 2 < q - ⌊q⌋ then ⌊q⌋ + 1
  else if ⌊q⌋ % 2 = 0 then ⌊q⌋ else ⌊q⌋ + 1

/-- Integer form of `pythonRound (a / b)` for `0 < b`: Euclidean quotient and
remainder decide the three rounding cases.  Used to evaluate the scorer on
concrete inputs, since rational arithmetic does not reduce in the kernel. -/
def roundHalfEven (a b : ℤ) : ℤ :=
  if 2 * (a % b) < b then a / b
  else if b < 2 * (a % b) then a / b + 1
  else if (a / b) % 2 = 0 then a / b else a / b + 1

/-- The breakdown dictionary returned by `compute_fit_score` (4 integer fields). -/
structure Breakdown where
  keyword_coverage : ℤ
  seniority : ℤ
  numeric : ℤ
  overall : ℤ
deriving DecidableEq, Repr

/-- `keyword_score = round(len(overlap) / len(jd_tokens) * 100)`. -/
def keyword_score (jd res : String) : ℤ :=
  pythonRound ((((tokenFinset jd ∩ tokenFinset res).card : ℚ) /
    ((tokenFinset jd).card : ℚ)) * 100)

/-- The fixed seniority vocabulary of the source, in order. -/
def SENIORITY : List String :=
  ["intern", "junior", "associate", "mid", "senior", "lead", "principal",
   "director", "vp", "chief"]

/-- The seniority alignment heuristic of `compute_fit_score`.  The two filtered
lists are the source locals `jd_sen` and `res_sen`; the source condition is
`(jd_sen and any(s in res_sen for s in jd_sen)) or (not jd_sen)`. -/
def seniority_match (jd res : String) : ℤ :=
  if (SENIORITY.filter (fun s => decide (s ∈ tokenFinset jd)) ≠ [] ∧
      (SENIORITY.filter (fun s => decide (s ∈ tokenFinset jd))).any
        (fun s => decide (s ∈ SENIORITY.filter (fun s => decide (s ∈ tokenFinset res))))) ∨
      SENIORITY.filter (fun s => decide (s ∈ tokenFinset jd)) = []
  then 100 else 40

/-- The numeric years alignment heuristic of `compute_fit_score`. -/
def numeric_match (jd res : String) : ℤ :=
  if findallYears (pyLower jd) = [] then 100
  else if findallYears (pyLower res) ≠ [] then 80
  else 30

/-- `round(keyword_score*0.4 + seniority*0.2 + numeric*0.1 + 0.3*100*(len(overlap) > 0))`. -/
def total_score (jd res : String) : ℤ :=
  pythonRound ((keyword_score jd res : ℚ) * 0.4 + (seniority_match jd res : ℚ) * 0.2 +
    (numeric_match jd res : ℚ) * 0.1 +
    0.3 * 100 * (if 0 < (tokenFinset jd ∩ tokenFinset res).card then (1 : ℚ) else 0))

/-- `compute_fit_score(jd_text, resume_md)`: `(0, {})` when the job token set is
empty, else the weighted total together with the four-field breakdown.  The empty
Python dict is modelled by `none`. -/
def compute_fit_score (jd_text resume_md : String) : ℤ × Option Breakdown :=
  if tokenFinset jd_text = ∅ then (0, none)
  else (total_score jd_text resume_md,
    some ⟨keyword_score jd_text resume_md, seniority_match jd_text resume_md,
      numeric_match jd_text resume_md, total_score jd_text resume_md⟩)

/-- `_strip_html(text) = re.sub(r"\s+", " ", text).strip()`: collapse each maximal
whitespace run to a single space. -/
def collapseWs : List Char → List Char
  | [] => []
  | [c] => if isSpacePy c then [' '] else [c]
  | c :: c2 :: cs =>
    if isSpacePy c && isSpacePy c2 then collapseWs (c2 :: cs)
    else (if isSpacePy c then ' ' else c) :: collapseWs (c2 :: cs)

/-- Python `str.strip()`: drop leading and trailing whitespace. -/
def pyStrip (l : List Char) : List Char :=
  ((l.dropWhile isSpacePy).reverse.dropWhile isSpacePy).reverse

/-- `_strip_html` of the source: whitespace normalization of returned text. -/
def _strip_html (s : String) : String := String.mk (pyStrip (collapseWs s.data))

/-- Python `max(candidates, key=len)`: the first string of maximal length. -/
def maxByLen : List String → String
  | [] => ""
  | [s] => s
  | s :: s2 :: rest =>
    if (maxByLen (s2 :: rest)).length ≤ s.length then s else maxByLen (s2 :: rest)

/-- The generic largest-text-block fallback of `fetch_job_description`
(`job_apply_assistant.py` lines 180-188): the candidate text blocks of the parsed
page with more than 100 characters; if none, all visible page text
whitespace-normalized, else the largest candidate whitespace-normalized.
The HTML parser is modelled as having supplied the list of candidate text blocks
and the full visible page text. -/
def fallback_extract (textBlocks : List String) (pageText : String) : String :=
  if textBlocks.filter (fun el => decide (100 < el.length)) = [] then _strip_html pageText
  else _strip_html (maxByLen (textBlocks.filter (fun el => decide (100 < el.length))))

/-- A 500-character paragraph, the concrete block of the spec's
generic-fallback scenario. -/
def sampleParagraph : String := String.mk (List.replicate 500 'a')

/-- A page whose candidate text blocks are one 500-character paragraph and
several shorter ones. -/
def samplePage : List String := [sampleParagraph, "a short filler paragraph", "nav"]

/-! ### Rounding: the rational model evaluated through integer division -/

lemma pythonRound_div_eq (a b : ℤ) (hb : 0 < b) :
    pythonRound ((a : ℚ) / (b : ℚ)) = roundHalfEven a b := by
  have hbQ : (0 : ℚ) < (b : ℚ) := by exact_mod_cast hb
  have hbne : (b : ℚ) ≠ 0 := ne_of_gt hbQ
  have hdecomp : a = b * (a / b) + a % b := (Int.ediv_add_emod a b).symm
  have hr0 : (0 : ℤ) ≤ a % b := Int.emod_nonneg a (ne_of_gt hb)
  have hrb : a % b < b := Int.emod_lt_of_pos a hb
  have hq : (a : ℚ) / (b : ℚ) = ((a / b : ℤ) : ℚ) + ((a % b : ℤ) : ℚ) / (b : ℚ) := by
    have hzq : (b : ℚ) * ((a / b : ℤ) : ℚ) + ((a % b : ℤ) : ℚ) = (a : ℚ) := by
      exact_mod_cast congrArg (Int.cast : ℤ → ℚ) (Int.ediv_add_emod a b)
    field_simp
    linarith [hzq]
  have hfloor : ⌊(a : ℚ) / (b : ℚ)⌋ = a / b := by
    rw [hq, Int.floor_int_add]
    have h0 : ⌊((a % b : ℤ) : ℚ) / (b : ℚ)⌋ = 0 := by
      refine Int.floor_eq_zero_iff.mpr ⟨div_nonneg (by exact_mod_cast hr0) hbQ.le, ?_⟩
      rw [div_lt_one hbQ]
      exact_mod_cast hrb
    rw [h0, add_zero]
  have hfrac : (a : ℚ) / (b : ℚ) - (⌊(a : ℚ) / (b : ℚ)⌋ : ℚ) = ((a % b : ℤ) : ℚ) / (b : ℚ) := by
    rw [hfloor, hq]; ring
  have hlt : ((a : ℚ) / (b : ℚ) - (⌊(a : ℚ) / (b : ℚ)⌋ : ℚ) < 1 / 2) ↔ 2 * (a % b) < b := by
    rw [hfrac, div_lt_div_iff₀ hbQ (by norm_num : (0 : ℚ) < 2)]
    have hcast : (((a % b : ℤ) : ℚ) * 2 < 1 * (b : ℚ)) ↔ ((a % b) * 2 < 1 * b) := by
      exact_mod_cast Iff.rfl
    rw [hcast]
    omega
  have hgt : (1 / 2 < (a : ℚ) / (b : ℚ) - (⌊(a : ℚ) / (b : ℚ)⌋ : ℚ)) ↔ b < 2 * (a % b) := by
    rw [hfrac, div_lt_div_iff₀ (by norm_num : (0 : ℚ) < 2) hbQ]
    have hcast : ((1 : ℚ) * (b : ℚ) < ((a % b : ℤ) : ℚ) * 2) ↔ (1 * b < (a % b) * 2) := by
      exact_mod_cast Iff.rfl
    rw [hcast]
    omega
  unfold pythonRound roundHalfEven
  rcases lt_trichotomy (2 * (a % b)) b with h | h | h
  · rw [if_pos (hlt.mpr h), if_pos h, hfloor]
  · have h1 : ¬ (2 * (a % b) < b) := by omega
    have h2 : ¬ (b < 2 * (a % b)) := by omega
    rw [if_neg (fun hc => h1 (hlt.mp hc)), if_neg (fun hc => h2 (hgt.mp hc)),
      if_neg h1, if_neg h2, hfloor]
  · rw [if_neg (fun hc => (by omega : ¬ (2 * (a % b) < b)) (hlt.mp hc)),
      if_pos (hgt.mpr h), if_neg (by omega : ¬ (2 * (a % b) < b)), if_pos h, hfloor]

/-! ### Evaluation forms of the scorer's arithmetic -/

lemma keyword_score_eval (jd res : String) (h : (tokenFinset jd).card ≠ 0) :
    keyword_score jd res =
      roundHalfEven (100 * ((tokenFinset jd ∩ tokenFinset res).card : ℤ))
        ((tokenFinset jd).card : ℤ) := by
  have hb : (0 : ℤ) < ((tokenFinset jd).card : ℤ) := by
    exact_mod_cast Nat.pos_of_ne_zero h
  rw [keyword_score, ← pythonRound_div_eq _ _ hb]
  congr 1
  push_cast
  rw [div_mul_eq_mul_div, mul_comm]

lemma total_score_eval (jd res : String) :
    total_score jd res = roundHalfEven
      (4 * keyword_score jd res + 2 * seniority_match jd res + numeric_match jd res +
        300 * (if 0 < (tokenFinset jd ∩ tokenFinset res).card then (1 : ℤ) else 0)) 10 := by
  rw [total_score, ← pythonRound_div_eq _ 10 (by norm_num)]
  congr 1
  split_ifs with h
  · push_cast
    norm_num
    ring
  · push_cast
    norm_num
    ring

lemma compute_fit_score_of_ne (jd res : String) (h : tokenFinset jd ≠ ∅) :
    compute_fit_score jd res = (total_score jd res,
      some ⟨keyword_score jd res, seniority_match jd res, numeric_match jd res,
        total_score jd res⟩) := by
  rw [compute_fit_score, if_neg h]

lemma compute_fit_score_of_empty (jd res : String) (h : tokenFinset jd = ∅) :
    compute_fit_score jd res = (0, none) := by
  rw [compute_fit_score, if_pos h]

/-! ### List scanning helper lemmas -/

lemma takeWhile_append_all (p : Char → Bool) (xs ys : List Char)
    (h : ∀ c ∈ xs, p c = true) : (xs ++ ys).takeWhile p = xs ++ ys.takeWhile p := by
  induction xs with
  | nil => rfl
  | cons c cs ih =>
    have hc := h c (by simp)
    simp [List.cons_append, List.takeWhile_cons, hc, ih (fun d hd => h d (by simp [hd]))]

lemma dropWhile_append_all (p : Char → Bool) (xs ys : List Char)
    (h : ∀ c ∈ xs, p c = true) : (xs ++ ys).dropWhile p = ys.dropWhile p := by
  induction xs with
  | nil => rfl
  | cons c cs ih =>
    have hc := h c (by simp)
    simp [List.cons_append, List.dropWhile_cons, hc, ih (fun d hd => h d (by simp [hd]))]

lemma takeWhile_head_false (p : Char → Bool) (c : Char) (cs : List Char)
    (h : p c = false) : (c :: cs).takeWhile p = [] := by
  simp [List.takeWhile_cons, h]

lemma dropWhile_head_false (p : Char → Bool) (c : Char) (cs : List Char)
    (h : p c = false) : (c :: cs).dropWhile p = c :: cs := by
  simp [List.dropWhile_cons, h]

lemma startsWithList_iff (p l : List Char) :
    startsWithList p l = true ↔ ∃ t, l = p ++ t := by
  induction p generalizing l with
  | nil =>
    simp only [startsWithList, List.nil_append, true_iff]
    exact ⟨l, rfl⟩
  | cons x xs ih =>
    cases l with
    | nil => simp [startsWithList]
    | cons c cs =>
      simp only [startsWithList, Bool.and_eq_true, decide_eq_true_eq, ih,
        List.cons_append, List.cons.injEq]
      constructor
      · rintro ⟨rfl, t, rfl⟩
        exact ⟨t, rfl, rfl⟩
      · rintro ⟨t, rfl, rfl⟩
        exact ⟨rfl, t, rfl⟩

lemma isSpacePy_not_digit (c : Char) (h : isSpacePy c = true) : isDigit09 c = false := by
  simp only [isSpacePy, Bool.or_eq_true, decide_eq_true_eq] at h
  rcases h with ((((h | h) | h) | h) | h) | h <;> subst h <;> decide

/-- A successful anchored match of the years regex yields a decomposition of the
input into digits, whitespace, the literal `years`, and a remainder. -/
lemma matchYearsAt_decomp (l : List Char) (h : (matchYearsAt l).isSome = true) :
    ∃ d w t, l = d ++ (w ++ ("years".data ++ t)) ∧ d ≠ [] ∧
      (∀ c ∈ d, isDigit09 c = true) ∧ w ≠ [] ∧ (∀ c ∈ w, isSpacePy c = true) := by
  unfold matchYearsAt at h
  by_cases hd : l.takeWhile isDigit09 = []
  · simp [hd] at h
  by_cases hw : (l.dropWhile isDigit09).takeWhile isSpacePy = []
  · simp [hd, hw] at h
  by_cases hy : startsWithList ("years".data) ((l.dropWhile isDigit09).dropWhile isSpacePy) = true
  · obtain ⟨t, ht⟩ := (startsWithList_iff _ _).mp hy
    refine ⟨l.takeWhile isDigit09, (l.dropWhile isDigit09).takeWhile isSpacePy, t, ?_, hd,
      fun c hc => List.mem_takeWhile_imp hc, hw, fun c hc => List.mem_takeWhile_imp hc⟩
    have h1 : l.dropWhile isDigit09 =
        (l.dropWhile isDigit09).takeWhile isSpacePy ++ ("years".data ++ t) := by
      conv_lhs => rw [← List.takeWhile_append_dropWhile (p := isSpacePy)
        (l := l.dropWhile isDigit09)]
      rw [ht]
    conv_lhs => rw [← List.takeWhile_append_dropWhile (p := isDigit09) (l := l), h1]
  · simp [hd, hw, hy] at h

/-- Conversely, an input of that decomposed shape matches the years regex. -/
lemma matchYearsAt_some (d w t : List Char) (hd : d ≠ [])
    (hdall : ∀ c ∈ d, isDigit09 c = true) (hw : w ≠ [])
    (hwall : ∀ c ∈ w, isSpacePy c = true) :
    (matchYearsAt (d ++ (w ++ ("years".data ++ t)))).isSome = true := by
  obtain ⟨w0, wrest, rfl⟩ : ∃ w0 wrest, w = w0 :: wrest := by
    cases w with
    | nil => exact absurd rfl hw
    | cons w0 wrest => exact ⟨w0, wrest, rfl⟩
  have hw0 : isSpacePy w0 = true := hwall w0 (by simp)
  have hyhead : "years".data ++ t = 'y' :: ("ears".data ++ t) := rfl
  have htake : (d ++ (w0 :: wrest ++ ("years".data ++ t))).takeWhile isDigit09 = d := by
    rw [takeWhile_append_all _ _ _ hdall, List.cons_append,
      takeWhile_head_false _ _ _ (isSpacePy_not_digit w0 hw0), List.append_nil]
  have hdrop : (d ++ (w0 :: wrest ++ ("years".data ++ t))).dropWhile isDigit09 =
      w0 :: wrest ++ ("years".data ++ t) := by
    conv_lhs => rw [dropWhile_append_all _ _ _ hdall, List.cons_append,
      dropWhile_head_false _ _ _ (isSpacePy_not_digit w0 hw0)]
    rfl
  have htake2 : (w0 :: wrest ++ ("years".data ++ t)).takeWhile isSpacePy = w0 :: wrest := by
    have := takeWhile_append_all isSpacePy (w0 :: wrest) ("years".data ++ t) hwall
    rw [this, hyhead, takeWhile_head_false _ _ _ (by decide), List.append_nil]
  have hdrop2 : (w0 :: wrest ++ ("years".data ++ t)).dropWhile isSpacePy =
      "years".data ++ t := by
    have := dropWhile_append_all isSpacePy (w0 :: wrest) ("years".data ++ t) hwall
    rw [this, hyhead, dropWhile_head_false _ _ _ (by decide)]
  unfold matchYearsAt
  rw [htake, hdrop, htake2, hdrop2]
  rw [if_neg hd, if_neg (by simp : ¬ (w0 :: wrest = [])),
    if_pos ((startsWithList_iff _ _).mpr ⟨t, rfl⟩)]
  rfl

lemma scanYears_match_of_ne_nil (fuel : Nat) (l : List Char)
    (h : scanYears fuel l ≠ []) : ∃ n, (matchYearsAt (l.drop n)).isSome = true := by
  induction fuel generalizing l with
  | zero => simp [scanYears] at h
  | succ fuel ih =>
    cases l with
    | nil => simp [scanYears] at h
    | cons c cs =>
      cases hm : matchYearsAt (c :: cs) with
      | some v => exact ⟨0, by simp [hm]⟩
      | none =>
        simp only [scanYears, hm] at h
        obtain ⟨n, hn⟩ := ih cs h
        exact ⟨n + 1, by simp only [List.drop_succ_cons]; exact hn⟩

lemma scanYears_ne_nil_of_match (fuel : Nat) (l : List Char) (n : Nat)
    (hfuel : l.length ≤ fuel) (h : (matchYearsAt (l.drop n)).isSome = true) :
    scanYears fuel l ≠ [] := by
  induction fuel generalizing l n with
  | zero =>
    have hl : l = [] := List.length_eq_zero.mp (Nat.le_zero.mp hfuel)
    subst hl
    simp [matchYearsAt, List.drop_nil] at h
  | succ fuel ih =>
    cases l with
    | nil => simp [matchYearsAt] at h
    | cons c cs =>
      cases hm : matchYearsAt (c :: cs) with
      | some v =>
        obtain ⟨d, rest⟩ := v
        simp [scanYears, hm]
      | none =>
        cases n with
        | zero => rw [List.drop_zero] at h; rw [hm] at h; simp at h
        | succ n =>
          have hcs : cs.length ≤ fuel := by simpa using hfuel
          have h2 := ih cs n hcs (by simpa using h)
          simpa only [scanYears, hm] using h2

lemma findallYears_ne_nil_iff (s : String) :
    findallYears (pyLower s) ≠ [] ↔ containsYearsFigure s := by
  constructor
  · intro h
    obtain ⟨n, hn⟩ := scanYears_match_of_ne_nil _ _ h
    obtain ⟨d, w, t, hEq, hd, hdall, hw, hwall⟩ := matchYearsAt_decomp _ hn
    exact ⟨(pyLower s).take n, d, w, t,
      by rw [← hEq, List.take_append_drop], hd, hdall, hw, hwall⟩
  · rintro ⟨pre, d, w, t, hEq, hd, hdall, hw, hwall⟩
    apply scanYears_ne_nil_of_match _ _ pre.length le_rfl
    rw [hEq, List.drop_left]
    exact matchYearsAt_some d w t hd hdall hw hwall

/-! ### Shape of the tokens produced by the tokenizer -/

lemma matchTokenAt_shape (l t rest : List Char) (h : matchTokenAt l = some (t, rest)) :
    ∃ c run, t = c :: run ∧ isAlphaAZ c = true ∧ run ≠ [] := by
  cases l with
  | nil => simp [matchTokenAt] at h
  | cons c cs =>
    by_cases ha : isAlphaAZ c
    · by_cases hr : cs.takeWhile isTokenChar = []
      · simp [matchTokenAt, ha, hr] at h
      · simp [matchTokenAt, ha, hr] at h
        exact ⟨c, cs.takeWhile isTokenChar, h.1.symm, ha, hr⟩
    · simp [matchTokenAt, ha] at h

lemma scanTokens_shape (fuel : Nat) (l : List Char) (t : List Char)
    (ht : t ∈ scanTokens fuel l) :
    ∃ c run, t = c :: run ∧ isAlphaAZ c = true ∧ run ≠ [] := by
  induction fuel generalizing l with
  | zero => simp [scanTokens] at ht
  | succ fuel ih =>
    cases l with
    | nil => simp [scanTokens] at ht
    | cons c cs =>
      cases hm : matchTokenAt (c :: cs) with
      | none =>
        simp only [scanTokens, hm] at ht
        exact ih cs ht
      | some v =>
        obtain ⟨tok, rest⟩ := v
        simp only [scanTokens, hm] at ht
        rcases List.mem_cons.mp ht with rfl | hmem
        · exact matchTokenAt_shape _ _ _ hm
        · exact ih rest hmem

lemma toLowerChar_alpha (c : Char) (h : isAlphaAZ c = true) :
    isAlphaAZ (toLowerChar c) = true := by
  unfold toLowerChar
  split <;> first | decide | assumption

/-- Every token produced by `_tokens` is a lowered regex match: a letter head
followed by a nonempty tail. -/
lemma mem_tokens_shape (s : String) (t : String) (ht : t ∈ _tokens s) :
    ∃ c run, t.data = c :: run ∧ isAlphaAZ c = true ∧ run ≠ [] := by
  unfold _tokens at ht
  obtain ⟨ht1, -⟩ := List.mem_filter.mp ht
  obtain ⟨u, hu, rfl⟩ := List.mem_map.mp ht1
  obtain ⟨c, run, rfl, hc, hrun⟩ := scanTokens_shape _ _ u hu
  exact ⟨toLowerChar c, run.map toLowerChar, rfl, toLowerChar_alpha c hc, by simp [hrun]⟩

/-! ### The largest-block selection of the extractor fallback -/

lemma maxByLen_mem (l : List String) (h : l ≠ []) : maxByLen l ∈ l := by
  induction l with
  | nil => exact absurd rfl h
  | cons s rest ih =>
    cases rest with
    | nil => simp [maxByLen]
    | cons s2 r2 =>
      rw [maxByLen]
      split_ifs with hle
      · simp
      · exact List.mem_cons_of_mem s (ih (by simp))

lemma maxByLen_eq_of_strict (l : List String) (b : String) (hb : b ∈ l)
    (hmax : ∀ x ∈ l, x ≠ b → x.length < b.length) : maxByLen l = b := by
  induction l with
  | nil => simp at hb
  | cons s rest ih =>
    cases rest with
    | nil =>
      rw [maxByLen]
      simpa using (List.mem_singleton.mp hb).symm
    | cons s2 r2 =>
      by_cases hsb : s = b
      · subst hsb
        rw [maxByLen]
        by_cases hmb : maxByLen (s2 :: r2) = s
        · rw [if_pos (by rw [hmb])]
        · have hm := maxByLen_mem (s2 :: r2) (by simp)
          have hlt : (maxByLen (s2 :: r2)).length < s.length :=
            hmax _ (List.mem_cons_of_mem _ hm) hmb
          rw [if_pos hlt.le]
      · have hbrest : b ∈ s2 :: r2 := by
          rcases List.mem_cons.mp hb with h | h
          · exact absurd h.symm hsb
          · exact h
        have ihb : maxByLen (s2 :: r2) = b :=
          ih hbrest (fun x hx hxb => hmax x (List.mem_cons_of_mem _ hx) hxb)
        rw [maxByLen, ihb]
        have hs : s.length < b.length := hmax s (by simp) hsb
        rw [if_neg (not_le.mpr hs)]

/-! ### Bounds for Python rounding -/

lemma pythonRound_intCast (n : ℤ) : pythonRound ((n : ℚ)) = n := by
  unfold pythonRound
  rw [Int.floor_intCast]
  norm_num

lemma pythonRound_nonneg (q : ℚ) (h : 0 ≤ q) : 0 ≤ pythonRound q := by
  have h0 : 0 ≤ ⌊q⌋ := Int.floor_nonneg.mpr h
  unfold pythonRound
  split_ifs <;> omega

lemma pythonRound_le (q : ℚ) (n : ℤ) (h : q ≤ (n : ℚ)) : pythonRound q ≤ n := by
  have hfl : ⌊q⌋ ≤ n := by
    have h2 := Int.floor_le_floor h
    rwa [Int.floor_intCast] at h2
  have hkey : ¬ (q - ⌊q⌋ < 1 / 2) → ⌊q⌋ < n := by
    intro h1
    have hfr : (1 : ℚ) / 2 ≤ q - ⌊q⌋ := not_lt.mp h1
    have hlt : (⌊q⌋ : ℚ) < (n : ℚ) := by linarith
    exact_mod_cast hlt
  unfold pythonRound
  split_ifs with h1 h2 h3
  · exact hfl
  · have := hkey h1; omega
  · exact hfl
  · have := hkey h1; omega

/-! ### Case analyses of the sub-scores -/

lemma keyword_score_nonneg (jd res : String) : 0 ≤ keyword_score jd res := by
  unfold keyword_score
  apply pythonRound_nonneg
  positivity

lemma keyword_score_le_100 (jd res : String) : keyword_score jd res ≤ 100 := by
  unfold keyword_score
  apply pythonRound_le
  push_cast
  rcases Nat.eq_zero_or_pos (tokenFinset jd).card with h | h
  · rw [h]
    norm_num
  · have hc : (0 : ℚ) < ((tokenFinset jd).card : ℚ) := by exact_mod_cast h
    have hi : ((tokenFinset jd ∩ tokenFinset res).card : ℚ) ≤ ((tokenFinset jd).card : ℚ) := by
      exact_mod_cast Finset.card_le_card Finset.inter_subset_left
    have hdiv : ((tokenFinset jd ∩ tokenFinset res).card : ℚ) /
        ((tokenFinset jd).card : ℚ) ≤ 1 := (div_le_one hc).mpr hi
    linarith

lemma seniority_match_cases (jd res : String) :
    seniority_match jd res = 100 ∨ seniority_match jd res = 40 := by
  unfold seniority_match
  split_ifs <;> simp

lemma numeric_match_cases (jd res : String) :
    numeric_match jd res = 100 ∨ numeric_match jd res = 80 ∨ numeric_match jd res = 30 := by
  unfold numeric_match
  split_ifs <;> simp

lemma total_score_bounds (jd res : String) :
    0 ≤ total_score jd res ∧ total_score jd res ≤ 100 := by
  have hks0 := keyword_score_nonneg jd res
  have hks1 := keyword_score_le_100 jd res
  have hsen := seniority_match_cases jd res
  have hnum := numeric_match_cases jd res
  have hksQ0 : (0 : ℚ) ≤ (keyword_score jd res : ℚ) := by exact_mod_cast hks0
  have hksQ1 : (keyword_score jd res : ℚ) ≤ 100 := by exact_mod_cast hks1
  have hsenQ : (40 : ℚ) ≤ (seniority_match jd res : ℚ) ∧
      (seniority_match jd res : ℚ) ≤ 100 := by
    rcases hsen with h | h <;> rw [h] <;> norm_num
  have hnumQ : (30 : ℚ) ≤ (numeric_match jd res : ℚ) ∧
      (numeric_match jd res : ℚ) ≤ 100 := by
    rcases hnum with h | h | h <;> rw [h] <;> norm_num
  unfold total_score
  have hindQ : (0 : ℚ) ≤ (if 0 < (tokenFinset jd ∩ tokenFinset res).card
        then (1 : ℚ) else 0) ∧
      (if 0 < (tokenFinset jd ∩ tokenFinset res).card then (1 : ℚ) else 0) ≤ 1 := by
    split_ifs <;> norm_num
  constructor
  · apply pythonRound_nonneg
    nlinarith [hindQ.1, hindQ.2, hsenQ.1, hnumQ.1]
  · apply pythonRound_le
    push_cast
    nlinarith [hindQ.1, hindQ.2, hsenQ.2, hnumQ.2]

/-! ### Seniority and numeric heuristics in claim form -/

lemma seniority_filter_empty_iff (jd : String) :
    SENIORITY.filter (fun s => decide (s ∈ tokenFinset jd)) = [] ↔
      ∀ s ∈ SENIORITY, s ∉ tokenFinset jd := by
  rw [List.filter_eq_nil_iff]
  simp

lemma seniority_any_iff (jd res : String) :
    (SENIORITY.filter (fun s => decide (s ∈ tokenFinset jd))).any
        (fun s => decide (s ∈ SENIORITY.filter (fun s => decide (s ∈ tokenFinset res)))) =
        true ↔
      ∃ s ∈ SENIORITY, s ∈ tokenFinset jd ∧ s ∈ tokenFinset res := by
  rw [List.any_eq_true]
  constructor
  · rintro ⟨x, hx, hpx⟩
    obtain ⟨hxs, hxjd⟩ := List.mem_filter.mp hx
    have hxres : x ∈ SENIORITY ∧ x ∈ tokenFinset res := by simpa using hpx
    exact ⟨x, hxs, by simpa using hxjd, hxres.2⟩
  · rintro ⟨x, hs, hjd, hres⟩
    exact ⟨x, List.mem_filter.mpr ⟨hs, by simpa⟩,
      by simp [List.mem_filter, hs, hres]⟩

lemma seniority_match_iff (jd res : String) :
    seniority_match jd res =
      (if (∀ s ∈ SENIORITY, s ∉ tokenFinset jd) ∨
          (∃ s ∈ SENIORITY, s ∈ tokenFinset jd ∧ s ∈ tokenFinset res)
        then (100 : ℤ) else 40) := by
  unfold seniority_match
  refine if_congr ?_ rfl rfl
  constructor
  · rintro (⟨hne, hany⟩ | he)
    · exact Or.inr ((seniority_any_iff jd res).mp hany)
    · exact Or.inl ((seniority_filter_empty_iff jd).mp he)
  · rintro (hall | hex)
    · exact Or.inr ((seniority_filter_empty_iff jd).mpr hall)
    · refine Or.inl ⟨?_, (seniority_any_iff jd res).mpr hex⟩
      obtain ⟨x, hs, hjd, -⟩ := hex
      exact List.ne_nil_of_mem (List.mem_filter.mpr ⟨hs, by simpa⟩)

lemma numeric_match_spec (jd res : String) :
    (¬ containsYearsFigure jd → numeric_match jd res = 100) ∧
    (containsYearsFigure jd → containsYearsFigure res → numeric_match jd res = 80) ∧
    (containsYearsFigure jd → ¬ containsYearsFigure res → numeric_match jd res = 30) := by
  unfold numeric_match
  refine ⟨fun h => ?_, fun h1 h2 => ?_, fun h1 h2 => ?_⟩
  · rw [if_pos (not_not.mp (fun hne => h ((findallYears_ne_nil_iff jd).mp hne)))]
  · rw [if_neg (fun he => ((findallYears_ne_nil_iff jd).mpr h1) he),
      if_pos ((findallYears_ne_nil_iff res).mpr h2)]
  · rw [if_neg (fun he => ((findallYears_ne_nil_iff jd).mpr h1) he),
      if_neg (fun hne => h2 ((findallYears_ne_nil_iff res).mp hne))]

/-- Full evaluation of the scorer on the spec's end-to-end scenario.  The
tokenizer keeps sentence-final periods (`TOKEN_RE` accepts `.` as a
continuation character), so the job tokens are
{senior, python, engineer., years, experience, aws, required.} and the résumé
tokens are {senior, engineer, years, experience, python, aws.}; only 4 of the
7 job tokens overlap. -/
lemma fitScore_scenario_eval : compute_fit_score
    "Senior Python Engineer. 5 years experience with Python and AWS required."
    "Senior engineer with 6 years experience in Python and AWS." =
    (81, some ⟨57, 100, 80, 81⟩) := by
  rw [compute_fit_score_of_ne _ _ (by decide)]
  have hks : keyword_score
      "Senior Python Engineer. 5 years experience with Python and AWS required."
      "Senior engineer with 6 years experience in Python and AWS." = 57 := by
    rw [keyword_score_eval _ _ (by decide)]
    decide
  have hsen : seniority_match
      "Senior Python Engineer. 5 years experience with Python and AWS required."
      "Senior engineer with 6 years experience in Python and AWS." = 100 := by decide
  have hnum : numeric_match
      "Senior Python Engineer. 5 years experience with Python and AWS required."
      "Senior engineer with 6 years experience in Python and AWS." = 80 := by decide
  have htot : total_score
      "Senior Python Engineer. 5 years experience with Python and AWS required."
      "Senior engineer with 6 years experience in Python and AWS." = 81 := by
    rw [total_score_eval, hks, hsen, hnum]
    decide
  rw [hks, hsen, hnum, htot]

/-! ### The claims -/

/-- C1: for every pair of inputs whose job token set is non-empty, the overall
score equals `round(keyword_coverage*0.4 + seniority*0.2 + numeric*0.1 +
100*0.3*has_any_overlap)`, where `has_any_overlap` is 1 exactly when the
intersection of job and résumé token sets is non-empty. -/
theorem claim_C1 (jd res : String) (h : tokenFinset jd ≠ ∅) :
    ∃ bd : Breakdown, (compute_fit_score jd res).2 = some bd ∧
      bd.overall = (compute_fit_score jd res).1 ∧
      (compute_fit_score jd res).1 =
        pythonRound ((bd.keyword_coverage : ℚ) * 0.4 + (bd.seniority : ℚ) * 0.2 +
          (bd.numeric : ℚ) * 0.1 +
          100 * 0.3 *
            (if (tokenFinset jd ∩ tokenFinset res).Nonempty then (1 : ℚ) else 0)) := by
  rw [compute_fit_score_of_ne jd res h]
  refine ⟨_, rfl, rfl, ?_⟩
  dsimp only
  rw [total_score]
  congr 1
  rw [if_congr Finset.card_pos rfl rfl]
  ring

/-- Witness for C1 at a concrete input pair. -/
theorem claim_C1_witness :
    tokenFinset "python developer wanted" ≠ ∅ ∧
    ∃ bd : Breakdown,
      (compute_fit_score "python developer wanted" "python enthusiast").2 = some bd ∧
      bd.overall = (compute_fit_score "python developer wanted" "python enthusiast").1 ∧
      (compute_fit_score "python developer wanted" "python enthusiast").1 =
        pythonRound ((bd.keyword_coverage : ℚ) * 0.4 + (bd.seniority : ℚ) * 0.2 +
          (bd.numeric : ℚ) * 0.1 +
          100 * 0.3 *
            (if (tokenFinset "python developer wanted" ∩
                tokenFinset "python enthusiast").Nonempty then (1 : ℚ) else 0)) :=
  ⟨by decide, claim_C1 "python developer wanted" "python enthusiast" (by decide)⟩

/-- C2 as stated is false on the code: on the spec's end-to-end scenario the
scorer returns keyword_coverage 57 and overall 81, not 86 and 92, because the
tokenizer keeps sentence-final periods (`engineer.` vs `engineer`, `aws` vs
`aws.`, `required.`). -/
theorem claim_C2_counterexample :
    (compute_fit_score
        "Senior Python Engineer. 5 years experience with Python and AWS required."
        "Senior engineer with 6 years experience in Python and AWS.").2 ≠
      some ⟨86, 100, 80, 92⟩ ∧
    (compute_fit_score
        "Senior Python Engineer. 5 years experience with Python and AWS required."
        "Senior engineer with 6 years experience in Python and AWS.").1 ≠ 92 := by
  rw [fitScore_scenario_eval]
  exact ⟨by decide, by decide⟩

/-- C2 (amended): on the spec's end-to-end scenario the scorer returns
keyword_coverage = 57, seniority = 100, numeric = 80 and overall = 81: the
token sets keep trailing sentence periods, so only 4 of the 7 job tokens
({senior, python, years, experience} out of {senior, python, engineer., years,
experience, aws, required.}) are matched. -/
theorem claim_C2 :
    (compute_fit_score
        "Senior Python Engineer. 5 years experience with Python and AWS required."
        "Senior engineer with 6 years experience in Python and AWS.").2 =
      some ⟨57, 100, 80, 81⟩ ∧
    (compute_fit_score
        "Senior Python Engineer. 5 years experience with Python and AWS required."
        "Senior engineer with 6 years experience in Python and AWS.").1 = 81 := by
  rw [fitScore_scenario_eval]
  exact ⟨rfl, rfl⟩

/-- C3: with a non-empty job token set, keyword coverage is the size of the
token-set intersection over the size of the job token set, as a rounded
percentage; and full token containment gives coverage 100. -/
theorem claim_C3 (jd res : String) (h : tokenFinset jd ≠ ∅) :
    ∃ bd : Breakdown, (compute_fit_score jd res).2 = some bd ∧
      bd.keyword_coverage =
        pythonRound (100 * ((tokenFinset jd ∩ tokenFinset res).card : ℚ) /
          ((tokenFinset jd).card : ℚ)) ∧
      (tokenFinset jd ⊆ tokenFinset res → bd.keyword_coverage = 100) := by
  rw [compute_fit_score_of_ne jd res h]
  refine ⟨_, rfl, ?_, ?_⟩
  · dsimp only
    rw [keyword_score]
    congr 1
    ring
  · intro hsub
    dsimp only
    rw [keyword_score, Finset.inter_eq_left.mpr hsub]
    have hc : ((tokenFinset jd).card : ℚ) ≠ 0 := by
      have hpos := Finset.card_pos.mpr (Finset.nonempty_iff_ne_empty.mpr h)
      exact_mod_cast Nat.pos_iff_ne_zero.mp hpos
    rw [div_self hc, one_mul]
    have h100 := pythonRound_intCast 100
    simpa using h100

/-- Witness for C3: a résumé containing every job token verbatim scores 100. -/
theorem claim_C3_witness :
    tokenFinset "python aws" ≠ ∅ ∧
    tokenFinset "python aws" ⊆ tokenFinset "python aws docker expert" ∧
    ∃ bd : Breakdown,
      (compute_fit_score "python aws" "python aws docker expert").2 = some bd ∧
      bd.keyword_coverage = 100 := by
  refine ⟨by decide, by decide, ?_⟩
  obtain ⟨bd, hbd, -, hfull⟩ :=
    claim_C3 "python aws" "python aws docker expert" (by decide)
  exact ⟨bd, hbd, hfull (by decide)⟩

/-- C4: an empty job token set (in particular an empty job text) makes the
scorer return overall 0 with an empty breakdown, and the keyword division is
only ever taken with a non-zero denominator. -/
theorem claim_C4 (jd res : String) :
    (tokenFinset jd = ∅ → compute_fit_score jd res = (0, none)) ∧
    (tokenFinset jd ≠ ∅ → ((tokenFinset jd).card : ℚ) ≠ 0) ∧
    compute_fit_score "" res = (0, none) := by
  refine ⟨fun h => compute_fit_score_of_empty jd res h, fun h => ?_,
    compute_fit_score_of_empty "" res (by decide)⟩
  have hpos := Finset.card_pos.mpr (Finset.nonempty_iff_ne_empty.mpr h)
  exact_mod_cast Nat.pos_iff_ne_zero.mp hpos

/-- Witness for C4: `score("", "any resume text")` is `(0, {})`. -/
theorem claim_C4_witness :
    compute_fit_score "" "any resume text" = (0, none) :=
  (claim_C4 "" "any resume text").2.2

/-- C5: with a non-empty job token set, the seniority sub-score is 100 when the
job tokens contain none of the ten seniority terms or the résumé tokens share
one of the job's seniority terms, and 40 otherwise. -/
theorem claim_C5 (jd res : String) (h : tokenFinset jd ≠ ∅) :
    ∃ bd : Breakdown, (compute_fit_score jd res).2 = some bd ∧
      bd.seniority =
        (if (∀ s ∈ SENIORITY, s ∉ tokenFinset jd) ∨
            (∃ s ∈ SENIORITY, s ∈ tokenFinset jd ∧ s ∈ tokenFinset res)
          then (100 : ℤ) else 40) := by
  rw [compute_fit_score_of_ne jd res h]
  exact ⟨_, rfl, seniority_match_iff jd res⟩

/-- Witness for C5 at the spec's mismatch example: job "Senior Engineer role"
versus résumé "Junior Developer" yields seniority 40. -/
theorem claim_C5_witness :
    tokenFinset "Senior Engineer role" ≠ ∅ ∧
    seniority_match "Senior Engineer role" "Junior Developer" = 40 ∧
    ∃ bd : Breakdown,
      (compute_fit_score "Senior Engineer role" "Junior Developer").2 = some bd ∧
      bd.seniority =
        (if (∀ s ∈ SENIORITY, s ∉ tokenFinset "Senior Engineer role") ∨
            (∃ s ∈ SENIORITY, s ∈ tokenFinset "Senior Engineer role" ∧
              s ∈ tokenFinset "Junior Developer")
          then (100 : ℤ) else 40) :=
  ⟨by decide, by decide, claim_C5 "Senior Engineer role" "Junior Developer" (by decide)⟩

/-- C6: with a non-empty job token set, the numeric sub-score is 100 when the
job text has no digits-whitespace-`years` figure (case-insensitively), 80 when
both texts have one, and 30 when only the job text does. -/
theorem claim_C6 (jd res : String) (h : tokenFinset jd ≠ ∅) :
    ∃ bd : Breakdown, (compute_fit_score jd res).2 = some bd ∧
      (¬ containsYearsFigure jd → bd.numeric = 100) ∧
      (containsYearsFigure jd → containsYearsFigure res → bd.numeric = 80) ∧
      (containsYearsFigure jd → ¬ containsYearsFigure res → bd.numeric = 30) := by
  rw [compute_fit_score_of_ne jd res h]
  exact ⟨_, rfl, numeric_match_spec jd res⟩

/-- Witness for C6: job "5 years experience required" and résumé
"worked 3 years" both contain a years figure, so the numeric sub-score is 80. -/
theorem claim_C6_witness :
    tokenFinset "5 years experience required" ≠ ∅ ∧
    ∃ bd : Breakdown,
      (compute_fit_score "5 years experience required" "worked 3 years").2 = some bd ∧
      bd.numeric = 80 := by
  refine ⟨by decide, ?_⟩
  obtain ⟨bd, hbd, -, h80, -⟩ :=
    claim_C6 "5 years experience required" "worked 3 years" (by decide)
  refine ⟨bd, hbd, h80 ?_ ?_⟩
  · exact ⟨[], ['5'], [' '], " experience required".data, by decide, by decide,
      by decide, by decide, by decide⟩
  · exact ⟨"worked ".data, ['3'], [' '], [], by decide, by decide, by decide,
      by decide, by decide⟩

/-- C7: for every pair of inputs the overall score is an integer between 0 and
100; in particular the flat 30-point any-overlap bonus can never push it above
100. -/
theorem claim_C7 (jd res : String) :
    0 ≤ (compute_fit_score jd res).1 ∧ (compute_fit_score jd res).1 ≤ 100 := by
  by_cases h : tokenFinset jd = ∅
  · rw [compute_fit_score_of_empty jd res h]
    exact ⟨le_refl 0, by norm_num⟩
  · rw [compute_fit_score_of_ne jd res h]
    exact total_score_bounds jd res

/-- C8: the scorer is a pure function of its two string arguments: equal inputs
give equal overall scores and equal breakdowns. -/
theorem claim_C8 (jd res jd2 res2 : String) (h1 : jd = jd2) (h2 : res = res2) :
    (compute_fit_score jd res).1 = (compute_fit_score jd2 res2).1 ∧
    (compute_fit_score jd res).2 = (compute_fit_score jd2 res2).2 := by
  subst h1
  subst h2
  exact ⟨rfl, rfl⟩

/-- Witness for C8 at a concrete repeated invocation. -/
theorem claim_C8_witness :
    (compute_fit_score "engineer role" "engineer").1 =
      (compute_fit_score "engineer role" "engineer").1 ∧
    (compute_fit_score "engineer role" "engineer").2 =
      (compute_fit_score "engineer role" "engineer").2 :=
  claim_C8 "engineer role" "engineer" "engineer role" "engineer" rfl rfl

/-- C9: the generic extractor fallback returns the whitespace-normalized text of
the strictly largest candidate block when that block exceeds 100 characters,
and the whitespace-normalized full page text when no block exceeds 100
characters. -/
theorem claim_C9 (textBlocks : List String) (pageText : String) :
    ((∀ el ∈ textBlocks, el.length ≤ 100) →
      fallback_extract textBlocks pageText = _strip_html pageText) ∧
    (∀ b ∈ textBlocks, 100 < b.length →
      (∀ el ∈ textBlocks, el ≠ b → el.length < b.length) →
      fallback_extract textBlocks pageText = _strip_html b) := by
  constructor
  · intro hall
    rw [fallback_extract,
      if_pos (List.filter_eq_nil_iff.mpr (fun a ha => by simp [not_lt.mpr (hall a ha)]))]
  · intro b hb hblen hmax
    have hbf : b ∈ textBlocks.filter (fun el => decide (100 < el.length)) :=
      List.mem_filter.mpr ⟨hb, by simpa using hblen⟩
    rw [fallback_extract, if_neg (List.ne_nil_of_mem hbf)]
    congr 1
    exact maxByLen_eq_of_strict _ b hbf
      (fun x hx hxb => hmax x (List.mem_filter.mp hx).1 hxb)

/-- Witness for C9: a page with one 500-character paragraph and shorter blocks
yields that paragraph's text. -/
theorem claim_C9_witness :
    sampleParagraph ∈ samplePage ∧ 100 < sampleParagraph.length ∧
    fallback_extract samplePage "ignored full page text" = _strip_html sampleParagraph := by
  refine ⟨by decide, by decide, ?_⟩
  exact (claim_C9 samplePage "ignored full page text").2 sampleParagraph
    (by decide) (by decide) (by decide)

/-- C10: every token produced by the tokenizer starts with an ASCII letter and
has length at least 2; in particular the one-letter skill names `c` and `r`
are never tokens. -/
theorem claim_C10 (s : String) :
    (∀ t ∈ tokenFinset s, 2 ≤ t.length ∧
      ∃ c run, t.data = c :: run ∧ isAlphaAZ c = true ∧ run ≠ []) ∧
    "c" ∉ tokenFinset s ∧ "r" ∉ tokenFinset s := by
  have hshape : ∀ t ∈ tokenFinset s,
      ∃ c run, t.data = c :: run ∧ isAlphaAZ c = true ∧ run ≠ [] :=
    fun t ht => mem_tokens_shape s t (List.mem_toFinset.mp ht)
  refine ⟨fun t ht => ?_, fun ht => ?_, fun ht => ?_⟩
  · obtain ⟨c, run, hdata, hc, hrun⟩ := hshape t ht
    refine ⟨?_, c, run, hdata, hc, hrun⟩
    have hlen : t.length = t.data.length := rfl
    rw [hlen, hdata]
    cases run with
    | nil => exact absurd rfl hrun
    | cons r0 r1 => simp [List.length_cons]
  · obtain ⟨c, run, hdata, -, hrun⟩ := hshape _ ht
    have : c = 'c' ∧ run = [] := by simpa using hdata.symm
    exact hrun this.2
  · obtain ⟨c, run, hdata, -, hrun⟩ := hshape _ ht
    have : c = 'r' ∧ run = [] := by simpa using hdata.symm
    exact hrun this.2

/-- Witness for C10: in "C++ and R" the only token is `c++` (which starts with
a letter and has length 3); neither `c` nor `r` is a token. -/
theorem claim_C10_witness :
    "c++" ∈ tokenFinset "C++ and R" ∧
    (2 ≤ ("c++" : String).length ∧
      ∃ c run, ("c++" : String).data = c :: run ∧ isAlphaAZ c = true ∧ run ≠ []) ∧
    "c" ∉ tokenFinset "C++ and R" ∧ "r" ∉ tokenFinset "C++ and R" :=
  ⟨by decide, (claim_C10 "C++ and R").1 "c++" (by decide),
    (claim_C10 "C++ and R").2.1, (claim_C10 "C++ and R").2.2⟩

end JobAssist
